import Mathlib

/-!
Verification development for the persisted counter service (src/index.js).

The service keeps a single JSON document with fields counter, history and
deletedHistory on disk.  Every HTTP handler reloads the document (initDb),
mutates it in memory, writes it back, and returns a value.  We embed the
document, the state transitions of the handlers and the schema-upgrade step
as pure Lean functions, and prove the specified properties about them.

JavaScript numbers are embedded as JsNum: an exact integer, or one of the
non-finite values nan, posInf, negInf.  The service only ever adds to or
subtracts from the counter, so within the exact-integer range of a double
this is the arithmetic the code performs.  Request-body values are embedded
as JsVal, enough to express the typeof-is-number test the handlers perform
on the amount field.
-/

namespace CounterService

/-- Embedding of a JavaScript number: an exact integer or a non-finite value. -/
inductive JsNum where
  | finite (n : Int)
  | nan
  | posInf
  | negInf
deriving DecidableEq, Repr

/-- JavaScript addition on numbers (integer / non-finite fragment). -/
def JsNum.add : JsNum → JsNum → JsNum
  | .nan, _ => .nan
  | _, .nan => .nan
  | .posInf, .negInf => .nan
  | .negInf, .posInf => .nan
  | .posInf, _ => .posInf
  | _, .posInf => .posInf
  | .negInf, _ => .negInf
  | _, .negInf => .negInf
  | .finite a, .finite b => .finite (a + b)

/-- JavaScript subtraction on numbers (integer / non-finite fragment). -/
def JsNum.sub : JsNum → JsNum → JsNum
  | .nan, _ => .nan
  | _, .nan => .nan
  | .posInf, .posInf => .nan
  | .negInf, .negInf => .nan
  | .posInf, _ => .posInf
  | .negInf, _ => .negInf
  | .finite _, .posInf => .negInf
  | .finite _, .negInf => .posInf
  | .finite a, .finite b => .finite (a - b)

/-- Embedding of a JavaScript request-body value, as far as the handlers
inspect it: a number, or any value whose typeof is not number (a string, a
boolean, null, or an absent field, i.e. undefined). -/
inductive JsVal where
  | num (n : JsNum)
  | str (s : String)
  | bool (b : Bool)
  | null
  | undefined
deriving DecidableEq, Repr

/-- The typeof-is-number test performed by the increment and decrement
handlers on the amount field of the request body.  Note that nan and the
infinities are of typeof number in JavaScript, so they pass this test. -/
def JsVal.isNumber : JsVal → Bool
  | .num _ => true
  | _ => false

/-- A history record with fields id, value and savedAt, as built by the
handler of POST /api/history. -/
structure HistoryEntry where
  id : String
  value : JsNum
  savedAt : String
deriving DecidableEq, Repr

/-- The persisted document with fields counter, history and deletedHistory,
after initDb has run (so deletedHistory is present). -/
structure Doc where
  counter : JsNum
  history : List HistoryEntry
  deletedHistory : List HistoryEntry
deriving DecidableEq, Repr

/-- The lowdb default document (src/index.js line 40): counter 0, empty
history, empty deletedHistory. -/
def defaultDoc : Doc := { counter := .finite 0, history := [], deletedHistory := [] }

/-- A stored document as read from disk: the deletedHistory field may be
missing (none), which initDb upgrades. -/
structure StoredDoc where
  counter : JsNum
  history : List HistoryEntry
  deletedHistory : Option (List HistoryEntry)
deriving DecidableEq, Repr

/-- Embedding of initDb (src/index.js lines 47-53): after the read, when the
deletedHistory field is not an array it is set to the empty array and the
document is written back at once.  Returns the in-memory document together
with whether that upgrade write happened. -/
def initDb (s : StoredDoc) : Doc × Bool :=
  match s.deletedHistory with
  | none => ({ counter := s.counter, history := s.history, deletedHistory := [] }, true)
  | some l => ({ counter := s.counter, history := s.history, deletedHistory := l }, false)

/-- The amount coercion of the increment and decrement handlers
(src/index.js lines 73 and 87): the amount is the body field when its typeof
is number, and 1 otherwise. -/
def coerceAmount (v : JsVal) : JsNum :=
  match v with
  | .num n => n
  | _ => .finite 1

/-- Handler of GET /api/counter (src/index.js lines 60-63): return the
counter; the document is not changed. -/
def getCounter (d : Doc) : JsNum := d.counter

/-- Handler of POST /api/counter/increment (src/index.js lines 71-77): add
the coerced amount to the counter. -/
def increment (v : JsVal) (d : Doc) : Doc :=
  { d with counter := d.counter.add (coerceAmount v) }

/-- Handler of POST /api/counter/decrement (src/index.js lines 85-91):
subtract the coerced amount from the counter. -/
def decrement (v : JsVal) (d : Doc) : Doc :=
  { d with counter := d.counter.sub (coerceAmount v) }

/-- Handler of POST /api/counter/reset (src/index.js lines 98-103): set the
counter to 0. -/
def resetCounter (d : Doc) : Doc :=
  { d with counter := .finite 0 }

/-- Handler of POST /api/history (src/index.js lines 110-120): build a
record from a freshly generated uuid and the current timestamp, push it onto
history, return it.  The id and timestamp produced by the environment are
passed in as arguments. -/
def saveSnapshot (id ts : String) (d : Doc) : HistoryEntry × Doc :=
  let record : HistoryEntry := { id := id, value := d.counter, savedAt := ts }
  (record, { d with history := d.history ++ [record] })

/-- Handler of GET /api/history (src/index.js lines 127-130): return the
history list; the document is not changed. -/
def listHistory (d : Doc) : List HistoryEntry := d.history

/-- Embedding of the findIndex-then-splice step of the delete handler:
remove the first entry with the given id, returning it together with the
remaining list; none when no entry matches. -/
def removeFirst (id : String) : List HistoryEntry → Option (HistoryEntry × List HistoryEntry)
  | [] => none
  | e :: rest =>
    if e.id = id then some (e, rest)
    else
      match removeFirst id rest with
      | none => none
      | some (x, l) => some (x, e :: l)

/-- Handler of DELETE /api/history/:id (src/index.js lines 144-154): find
the entry by id; if found, splice it out of history and push it onto
deletedHistory; otherwise do nothing.  Either way respond 204. -/
def deleteOne (id : String) (d : Doc) : Doc :=
  match removeFirst id d.history with
  | none => d
  | some (deleted, rest) =>
    { d with history := rest, deletedHistory := d.deletedHistory ++ [deleted] }

/-- Handler of DELETE /api/history (src/index.js lines 166-172): push the
whole history onto deletedHistory and empty history. -/
def clearHistory (d : Doc) : Doc :=
  { d with history := [], deletedHistory := d.deletedHistory ++ d.history }

/-- The failure of POST /api/history/restore: the 404 response reporting
that there are no deleted entries to restore. -/
inductive RestoreError where
  | notFound
deriving DecidableEq, Repr

/-- Handler of POST /api/history/restore (src/index.js lines 183-192): 404
when deletedHistory is empty; otherwise pop the last deleted entry, push it
onto history, and return it. -/
def restoreLast (d : Doc) : Except RestoreError (HistoryEntry × Doc) :=
  match d.deletedHistory.getLast? with
  | none => .error .notFound
  | some restored =>
    .ok (restored,
      { d with history := d.history ++ [restored],
               deletedHistory := d.deletedHistory.dropLast })

/-- Handler of GET /api/history/deleted (src/index.js lines 199-202): return
the deletedHistory list; the document is not changed. -/
def listDeleted (d : Doc) : List HistoryEntry := d.deletedHistory

/-- Handler of POST /api/database/reset (src/index.js lines 213-220):
counter to 0, both lists emptied. -/
def resetAll (_d : Doc) : Doc :=
  { counter := .finite 0, history := [], deletedHistory := [] }

/-- One mutating operation of the service, with the environment-supplied
data (request-body value, generated uuid and timestamp) recorded in the
label.  The read-only endpoints do not change the document and have no
label here. -/
inductive Op where
  | increment (v : JsVal)
  | decrement (v : JsVal)
  | resetCounter
  | saveSnapshot (id ts : String)
  | deleteOne (id : String)
  | clearHistory
  | restoreLast
  | resetAll
deriving DecidableEq, Repr

/-- The state transition of one operation (a failed restore leaves the
document unchanged). -/
def apply : Op → Doc → Doc
  | .increment v, d => increment v d
  | .decrement v, d => decrement v d
  | .resetCounter, d => resetCounter d
  | .saveSnapshot id ts, d => (saveSnapshot id ts d).2
  | .deleteOne id, d => deleteOne id d
  | .clearHistory, d => clearHistory d
  | .restoreLast, d =>
    match restoreLast d with
    | .error _ => d
    | .ok (_, d2) => d2
  | .resetAll, d => resetAll d

/-- The ids present in the document, active list first then deleted stack. -/
def allIds (d : Doc) : List String :=
  (d.history ++ d.deletedHistory).map HistoryEntry.id

/-- The environment condition under which an operation runs: the uuid
generator produces a fresh id, i.e. one not already present in the
document. -/
def freshOk : Op → Doc → Prop
  | .saveSnapshot id _, d => id ∉ allIds d
  | _, _ => True

/-- Documents reachable from the default document by operations whose
generated ids are fresh. -/
inductive Reachable : Doc → Prop
  | init : Reachable defaultDoc
  | step (op : Op) (d : Doc) : Reachable d → freshOk op d → Reachable (apply op d)

/-! ### Helper lemmas about removeFirst and getLast? -/

lemma removeFirst_of_not_mem (id : String) (l : List HistoryEntry)
    (h : ∀ e ∈ l, e.id ≠ id) : removeFirst id l = none := by
  induction l with
  | nil => rfl
  | cons a as ih =>
    have ha : a.id ≠ id := h a (List.mem_cons_self a as)
    have ih2 := ih fun e he => h e (List.mem_cons_of_mem a he)
    simp [removeFirst, ha, ih2]

lemma removeFirst_append_cons (id : String) (pre : List HistoryEntry)
    (e : HistoryEntry) (post : List HistoryEntry) (he : e.id = id)
    (hpre : ∀ x ∈ pre, x.id ≠ id) :
    removeFirst id (pre ++ e :: post) = some (e, pre ++ post) := by
  induction pre with
  | nil => simp [removeFirst, he]
  | cons x xs ih =>
    have hx : x.id ≠ id := hpre x (List.mem_cons_self x xs)
    have ih2 := ih fun y hy => hpre y (List.mem_cons_of_mem x hy)
    simp [removeFirst, hx, ih2]

lemma removeFirst_perm {id : String} {l rest : List HistoryEntry}
    {e : HistoryEntry} (h : removeFirst id l = some (e, rest)) :
    List.Perm l (e :: rest) := by
  induction l generalizing rest with
  | nil => simp [removeFirst] at h
  | cons a as ih =>
    by_cases ha : a.id = id
    · simp [removeFirst, ha] at h
      obtain ⟨rfl, rfl⟩ := h
      exact List.Perm.refl _
    · cases hr : removeFirst id as with
      | none => simp [removeFirst, ha, hr] at h
      | some p =>
        obtain ⟨x, restx⟩ := p
        simp [removeFirst, ha, hr] at h
        obtain ⟨rfl, rfl⟩ := h
        exact ((ih hr).cons a).trans (List.Perm.swap x a restx)

lemma getLast?_decomp {l : List HistoryEntry} {e : HistoryEntry}
    (h : l.getLast? = some e) : l = l.dropLast ++ [e] := by
  obtain ⟨l2, rfl⟩ := List.getLast?_eq_some_iff.mp h
  rw [List.dropLast_concat]

/-! ### C1: restoreLast -/

/-- C1: restoreLast fails with NotFound if and only if deletedHistory is
empty; otherwise it pops the last (most recently deleted) entry from
deletedHistory, appends it to history, and returns that entry; in
particular, when the deleted stack ends in A then B (as after deleting A
then B), the first restore returns B and the second returns A. -/
theorem restoreLast_spec (d : Doc) :
    (restoreLast d = .error .notFound ↔ d.deletedHistory = []) ∧
    (∀ stack e, d.deletedHistory = stack ++ [e] →
      restoreLast d = .ok (e, { counter := d.counter,
                                history := d.history ++ [e],
                                deletedHistory := stack })) ∧
    (∀ stack A B, d.deletedHistory = stack ++ [A, B] →
      ∃ d1 d2, restoreLast d = .ok (B, d1) ∧ restoreLast d1 = .ok (A, d2) ∧
        d2.counter = d.counter ∧
        d2.history = d.history ++ [B, A] ∧ d2.deletedHistory = stack) := by
  have key : ∀ dd : Doc, ∀ stack e, dd.deletedHistory = stack ++ [e] →
      restoreLast dd = .ok (e, { counter := dd.counter,
                                 history := dd.history ++ [e],
                                 deletedHistory := stack }) := by
    intro dd stack e hdd
    simp [restoreLast, hdd, List.getLast?_concat, List.dropLast_concat]
  refine ⟨?_, key d, ?_⟩
  · cases hg : d.deletedHistory.getLast? with
    | none =>
      simp [restoreLast, hg, List.getLast?_eq_none_iff.mp hg]
    | some e =>
      constructor
      · intro h; simp [restoreLast, hg] at h
      · intro h; rw [h] at hg; simp at hg
  · intro stack A B hd
    have h1 := key d (stack ++ [A]) B (by simpa using hd)
    refine ⟨_, _, h1, key _ stack A rfl, rfl, by simp, rfl⟩

/-- Witness for C1: on a document whose deleted stack holds the entries with
ids a then b, restore returns the entry with id b and moves it back to
history. -/
theorem restoreLast_spec_witness :
    restoreLast { counter := .finite 0, history := [],
                  deletedHistory := [{ id := "a", value := .finite 1, savedAt := "t1" },
                                     { id := "b", value := .finite 2, savedAt := "t2" }] } =
      .ok ({ id := "b", value := .finite 2, savedAt := "t2" },
           { counter := .finite 0,
             history := [{ id := "b", value := .finite 2, savedAt := "t2" }],
             deletedHistory := [{ id := "a", value := .finite 1, savedAt := "t1" }] }) :=
  (restoreLast_spec _).2.1 [{ id := "a", value := .finite 1, savedAt := "t1" }]
    { id := "b", value := .finite 2, savedAt := "t2" } rfl

/-! ### C2: amount coercion policy -/

/-- C2 counterexample: the claim says a non-finite amount is treated as
absent, so increment with amount Infinity on the default document would
leave the counter at 0 + 1 = 1, as an absent amount does.  The code instead
uses Infinity itself (its typeof is number), making the counter Infinity. -/
theorem amount_policy_counterexample :
    (increment (.num .posInf) defaultDoc).counter = .posInf ∧
    (increment .undefined defaultDoc).counter = .finite 1 ∧
    increment (.num .posInf) defaultDoc ≠ increment .undefined defaultDoc := by
  decide

/-- C2 amended: if the supplied amount is not of JavaScript number type
(absent, string, boolean or null), increment and decrement behave as if the
amount were absent and use the default of 1, and no error is raised; a value
of number type, including the non-finite values nan and the infinities, is
used as the amount unchanged. -/
theorem amount_policy (v : JsVal) (d : Doc) :
    (v.isNumber = false →
      increment v d = increment .undefined d ∧
      decrement v d = decrement .undefined d ∧
      (increment v d).counter = d.counter.add (.finite 1) ∧
      (decrement v d).counter = d.counter.sub (.finite 1)) ∧
    (∀ n, (increment (.num n) d).counter = d.counter.add n ∧
          (decrement (.num n) d).counter = d.counter.sub n) := by
  constructor
  · intro hv
    cases v <;> simp_all [JsVal.isNumber, increment, decrement, coerceAmount]
  · intro n
    exact ⟨rfl, rfl⟩

/-- Witness for C2 amended: a string amount is treated as absent and the
default of 1 is used on the default document. -/
theorem amount_policy_witness :
    (JsVal.str "five").isNumber = false ∧
    increment (.str "five") defaultDoc = increment .undefined defaultDoc ∧
    (increment (.str "five") defaultDoc).counter = defaultDoc.counter.add (.finite 1) := by
  refine ⟨rfl, ?_, ?_⟩
  · exact ((amount_policy (.str "five") defaultDoc).1 rfl).1
  · exact ((amount_policy (.str "five") defaultDoc).1 rfl).2.2.1

/-! ### C3: deleteOne -/

/-- C3: if an entry with the given id is in history, deleteOne removes the
first such entry from history and pushes it onto the top (end) of
deletedHistory, leaving the counter untouched and destroying nothing; if no
entry with that id is in history, deleteOne leaves the document unchanged
and signals no error. -/
theorem deleteOne_spec (d : Doc) (id : String) :
    ((∀ e ∈ d.history, e.id ≠ id) → deleteOne id d = d) ∧
    (∀ pre e post, d.history = pre ++ e :: post → e.id = id →
      (∀ x ∈ pre, x.id ≠ id) →
      deleteOne id d = { counter := d.counter, history := pre ++ post,
                         deletedHistory := d.deletedHistory ++ [e] }) := by
  constructor
  · intro h
    simp [deleteOne, removeFirst_of_not_mem id d.history h]
  · intro pre e post hh he hpre
    simp [deleteOne, hh, removeFirst_append_cons id pre e post he hpre]

/-- Witness for C3: deleting the single entry with id a moves it from
history to the deleted stack. -/
theorem deleteOne_spec_witness :
    deleteOne "a" { counter := .finite 3,
                    history := [{ id := "a", value := .finite 1, savedAt := "t1" }],
                    deletedHistory := [] } =
      { counter := .finite 3, history := [],
        deletedHistory := [{ id := "a", value := .finite 1, savedAt := "t1" }] } := by
  have h := (deleteOne_spec
      { counter := .finite 3,
        history := [{ id := "a", value := .finite 1, savedAt := "t1" }],
        deletedHistory := [] } "a").2
      [] { id := "a", value := .finite 1, savedAt := "t1" } []
      rfl rfl (by intro x hx; simp at hx)
  simpa using h

/-! ### C4: clearHistory -/

/-- C4: clearHistory empties history and appends all its entries, in their
existing relative order, as a contiguous block after the entries already on
the deleted stack; the counter is untouched. -/
theorem clearHistory_spec (d : Doc) :
    (clearHistory d).history = [] ∧
    (clearHistory d).deletedHistory = d.deletedHistory ++ d.history ∧
    (clearHistory d).counter = d.counter :=
  ⟨rfl, rfl, rfl⟩

/-! ### C5: saveSnapshot -/

/-- C5: saveSnapshot builds a new entry whose value is the counter at the
time of the call, appends it to the end of history and returns it; when the
environment-generated id is fresh (as the uuid generator guarantees) it
differs from every id already in the document; and a later increment or
decrement leaves the stored history, and hence the saved value, untouched. -/
theorem saveSnapshot_spec (d : Doc) (id ts : String) :
    (saveSnapshot id ts d).1 = { id := id, value := d.counter, savedAt := ts } ∧
    (saveSnapshot id ts d).2.history = d.history ++ [(saveSnapshot id ts d).1] ∧
    (saveSnapshot id ts d).2.counter = d.counter ∧
    (saveSnapshot id ts d).2.deletedHistory = d.deletedHistory ∧
    (id ∉ allIds d → ∀ e ∈ d.history ++ d.deletedHistory, e.id ≠ id) ∧
    (∀ v, (increment v (saveSnapshot id ts d).2).history.getLast? =
            some { id := id, value := d.counter, savedAt := ts } ∧
          (decrement v (saveSnapshot id ts d).2).history.getLast? =
            some { id := id, value := d.counter, savedAt := ts }) := by
  refine ⟨rfl, rfl, rfl, rfl, ?_, ?_⟩
  · intro hfresh e he heq
    exact hfresh (heq ▸ List.mem_map_of_mem HistoryEntry.id he)
  · intro v
    constructor
    · simp [increment, saveSnapshot, List.getLast?_concat]
    · simp [decrement, saveSnapshot, List.getLast?_concat]

/-- Witness for C5: snapshotting a document with counter 4 stores value 4 at
the end of history, and an increment by 3 afterwards leaves that entry in
place. -/
theorem saveSnapshot_spec_witness :
    (saveSnapshot "id1" "t1" { counter := .finite 4, history := [],
                               deletedHistory := [] }).1 =
      { id := "id1", value := .finite 4, savedAt := "t1" } ∧
    (increment (.num (.finite 3))
        (saveSnapshot "id1" "t1" { counter := .finite 4, history := [],
                                   deletedHistory := [] }).2).history.getLast? =
      some { id := "id1", value := .finite 4, savedAt := "t1" } ∧
    ("id1" ∉ allIds { counter := .finite 4, history := [], deletedHistory := [] } →
      ∀ e ∈ ([] : List HistoryEntry) ++ ([] : List HistoryEntry), e.id ≠ "id1") := by
  have h := saveSnapshot_spec { counter := .finite 4, history := [],
                                deletedHistory := [] } "id1" "t1"
  exact ⟨h.1, (h.2.2.2.2.2 (.num (.finite 3))).1, h.2.2.2.2.1⟩

/-! ### C6: resetAll -/

/-- C6: resetAll sets the counter to 0 and both lists to empty (i.e. the
default document) no matter the starting document, and afterwards
restoreLast fails with NotFound because the deleted stack is empty — the
wipe is irreversible. -/
theorem resetAll_spec (d : Doc) :
    resetAll d = defaultDoc ∧
    (resetAll d).counter = .finite 0 ∧
    (resetAll d).history = [] ∧
    (resetAll d).deletedHistory = [] ∧
    restoreLast (resetAll d) = .error .notFound :=
  ⟨rfl, rfl, rfl, rfl, rfl⟩

/-! ### C8: schema upgrade in initDb -/

/-- C8: loading a stored document that misses the deletedHistory field
treats that field as the empty list and writes the upgraded document back
immediately (flag true), before any operation proceeds; a document that
already has the field is loaded unchanged with no upgrade write (flag
false). -/
theorem initDb_spec (s : StoredDoc) :
    (s.deletedHistory = none →
      initDb s = ({ counter := s.counter, history := s.history,
                    deletedHistory := [] }, true)) ∧
    (∀ l, s.deletedHistory = some l →
      initDb s = ({ counter := s.counter, history := s.history,
                    deletedHistory := l }, false)) := by
  constructor
  · intro h; simp [initDb, h]
  · intro l h; simp [initDb, h]

/-- Witness for C8: a stored document without the deletedHistory field is
upgraded to one with an empty deleted stack and written back at once. -/
theorem initDb_spec_witness :
    initDb { counter := .finite 2, history := [], deletedHistory := none } =
      ({ counter := .finite 2, history := [], deletedHistory := [] }, true) :=
  (initDb_spec { counter := .finite 2, history := [], deletedHistory := none }).1 rfl

/-! ### C9: increment then decrement cancel -/

/-- C9: for every integer a, starting from a document whose counter is 0,
increment by a followed by decrement by a returns the counter to 0. -/
theorem increment_decrement_roundtrip (a : Int) (d : Doc)
    (h : d.counter = .finite 0) :
    (decrement (.num (.finite a)) (increment (.num (.finite a)) d)).counter =
      .finite 0 := by
  simp [increment, decrement, coerceAmount, h, JsNum.add, JsNum.sub]

/-- Witness for C9: increment by 5 then decrement by 5 on the default
document leaves the counter at 0. -/
theorem increment_decrement_roundtrip_witness :
    (decrement (.num (.finite 5))
      (increment (.num (.finite 5)) defaultDoc)).counter = .finite 0 :=
  increment_decrement_roundtrip 5 defaultDoc rfl

/-! ### C7: uniqueness of ids is an invariant of every reachable document -/

lemma apply_allIds_nodup (op : Op) (d : Doc) (hf : freshOk op d)
    (h : (allIds d).Nodup) : (allIds (apply op d)).Nodup := by
  cases op with
  | increment v => exact h
  | decrement v => exact h
  | resetCounter => exact h
  | saveSnapshot id ts =>
    have hperm : List.Perm
        ((d.history ++ [{ id := id, value := d.counter, savedAt := ts }]) ++
          d.deletedHistory)
        ({ id := id, value := d.counter, savedAt := ts } ::
          (d.history ++ d.deletedHistory)) := by
      rw [List.append_assoc]
      exact List.perm_middle
    have hnodup : (({ id := id, value := d.counter, savedAt := ts } ::
        (d.history ++ d.deletedHistory)).map HistoryEntry.id).Nodup := by
      rw [List.map_cons, List.nodup_cons]
      exact ⟨hf, h⟩
    have hn := (hperm.map HistoryEntry.id).symm.nodup hnodup
    simpa [apply, saveSnapshot, allIds] using hn
  | deleteOne id =>
    cases hr : removeFirst id d.history with
    | none => simpa [apply, deleteOne, hr] using h
    | some p =>
      obtain ⟨e, rest⟩ := p
      have hp := removeFirst_perm hr
      have h2 : List.Perm (d.history ++ d.deletedHistory)
          (e :: (rest ++ d.deletedHistory)) := by
        simpa using hp.append_right d.deletedHistory
      have hperm : List.Perm (rest ++ (d.deletedHistory ++ [e]))
          (d.history ++ d.deletedHistory) := by
        rw [← List.append_assoc]
        exact (List.perm_append_singleton e (rest ++ d.deletedHistory)).trans h2.symm
      have hn := (hperm.map HistoryEntry.id).symm.nodup h
      simpa [apply, deleteOne, hr, allIds] using hn
  | clearHistory =>
    have hperm : List.Perm (d.history ++ d.deletedHistory)
        (d.deletedHistory ++ d.history) := List.perm_append_comm
    have hn := (hperm.map HistoryEntry.id).nodup h
    simpa [apply, clearHistory, allIds] using hn
  | restoreLast =>
    cases hg : d.deletedHistory.getLast? with
    | none => simpa [apply, restoreLast, hg] using h
    | some e =>
      have hd := getLast?_decomp hg
      have h1 : List.Perm ((d.history ++ [e]) ++ d.deletedHistory.dropLast)
          (e :: (d.history ++ d.deletedHistory.dropLast)) := by
        rw [List.append_assoc]
        exact List.perm_middle
      have h2 : List.Perm (d.history ++ d.deletedHistory)
          (e :: (d.history ++ d.deletedHistory.dropLast)) := by
        conv_lhs => rw [hd]
        rw [← List.append_assoc]
        exact List.perm_append_singleton e (d.history ++ d.deletedHistory.dropLast)
      have hperm := h1.trans h2.symm
      have hn := (hperm.map HistoryEntry.id).symm.nodup h
      simpa [apply, restoreLast, hg, allIds] using hn
  | resetAll => simp [apply, resetAll, allIds]

/-- C7: in every document reachable from the default document by operations
with fresh generated ids, the ids across history and deletedHistory are
pairwise distinct, and no id occurs in both lists at once. -/
theorem reachable_unique_ids (d : Doc) (h : Reachable d) :
    (allIds d).Nodup ∧
    ∀ e1 ∈ d.history, ∀ e2 ∈ d.deletedHistory, e1.id ≠ e2.id := by
  have hn : (allIds d).Nodup := by
    induction h with
    | init => simp [allIds, defaultDoc]
    | step op d2 hd2 hf ih => exact apply_allIds_nodup op d2 hf ih
  refine ⟨hn, ?_⟩
  intro e1 h1 e2 h2 heq
  have hdisj : (d.history.map HistoryEntry.id).Disjoint
      (d.deletedHistory.map HistoryEntry.id) := by
    have hn2 := hn
    rw [allIds, List.map_append, List.nodup_append] at hn2
    exact hn2.2.2
  exact hdisj (List.mem_map_of_mem _ h1)
    (by rw [heq]; exact List.mem_map_of_mem _ h2)

/-- Witness for C7: the document obtained from the default one by saving a
snapshot with fresh id a and then deleting it has pairwise distinct ids. -/
theorem reachable_unique_ids_witness :
    (allIds (apply (.deleteOne "a") (apply (.saveSnapshot "a" "t1") defaultDoc))).Nodup ∧
    ∀ e1 ∈ (apply (.deleteOne "a") (apply (.saveSnapshot "a" "t1") defaultDoc)).history,
      ∀ e2 ∈ (apply (.deleteOne "a") (apply (.saveSnapshot "a" "t1") defaultDoc)).deletedHistory,
        e1.id ≠ e2.id := by
  have hr : Reachable (apply (.deleteOne "a") (apply (.saveSnapshot "a" "t1") defaultDoc)) := by
    refine Reachable.step _ _ (Reachable.step _ _ Reachable.init ?_) ?_
    · simp [freshOk, allIds, defaultDoc]
    · exact trivial
  exact reachable_unique_ids _ hr

/-! ### C10: frame conditions -/

/-- C10: the counter operations (getCounter, increment, decrement,
resetCounter) leave history and deletedHistory unchanged, and the history
operations (saveSnapshot, listHistory, deleteOne, clearHistory, restoreLast,
listDeleted) leave the counter unchanged; the read-only handlers return the
corresponding field without transforming the document at all. -/
theorem frame_conditions (d : Doc) (v : JsVal) (id ts : String) :
    (increment v d).history = d.history ∧
    (increment v d).deletedHistory = d.deletedHistory ∧
    (decrement v d).history = d.history ∧
    (decrement v d).deletedHistory = d.deletedHistory ∧
    (resetCounter d).history = d.history ∧
    (resetCounter d).deletedHistory = d.deletedHistory ∧
    getCounter d = d.counter ∧
    listHistory d = d.history ∧
    listDeleted d = d.deletedHistory ∧
    (saveSnapshot id ts d).2.counter = d.counter ∧
    (deleteOne id d).counter = d.counter ∧
    (clearHistory d).counter = d.counter ∧
    (∀ e d2, restoreLast d = .ok (e, d2) → d2.counter = d.counter) := by
  refine ⟨rfl, rfl, rfl, rfl, rfl, rfl, rfl, rfl, rfl, rfl, ?_, rfl, ?_⟩
  · cases hr : removeFirst id d.history with
    | none => simp [deleteOne, hr]
    | some p =>
      obtain ⟨e, rest⟩ := p
      simp [deleteOne, hr]
  · intro e d2 h
    cases hg : d.deletedHistory.getLast? with
    | none => simp [restoreLast, hg] at h
    | some x =>
      simp [restoreLast, hg] at h
      rw [← h.2]

/-- Witness for C10: on a document with counter 7 and one deleted entry,
restore succeeds and the restored document keeps counter 7. -/
theorem frame_conditions_witness :
    restoreLast { counter := .finite 7, history := [],
                  deletedHistory := [{ id := "a", value := .finite 1, savedAt := "t" }] } =
      .ok ({ id := "a", value := .finite 1, savedAt := "t" },
           { counter := .finite 7,
             history := [{ id := "a", value := .finite 1, savedAt := "t" }],
             deletedHistory := [] }) ∧
    ({ counter := .finite 7,
       history := [{ id := "a", value := .finite 1, savedAt := "t" }],
       deletedHistory := [] } : Doc).counter =
      ({ counter := .finite 7, history := [],
         deletedHistory := [{ id := "a", value := .finite 1, savedAt := "t" }] } : Doc).counter := by
  refine ⟨by rfl, ?_⟩
  exact (frame_conditions
      { counter := .finite 7, history := [],
        deletedHistory := [{ id := "a", value := .finite 1, savedAt := "t" }] }
      .undefined "a" "t").2.2.2.2.2.2.2.2.2.2.2.2 _ _ (by rfl)

end CounterService
